import Mathlib

/-!
Verification development for the custom MPTT (nested-set) tree manager of the
content-curation repository (`contentcuration/db/models/manager.py`,
`CustomContentNodeTreeManager`).  The Django/mptt program is shallowly embedded:
rows are explicit records, the database is a list of rows, storage-mutating
calls become pure functions from database to database, and Python exceptions
become `Except.error`.
-/

set_option maxHeartbeats 1000000

namespace Studio

/-- The four insertion positions accepted by `insert_node` / `build_tree_nodes`
(`"first-child"`, `"last-child"`, `"left"`, `"right"`). -/
inductive Position where
  | firstChild
  | lastChild
  | left
  | right
deriving DecidableEq, Repr

/-- One database row of the content-node table, restricted to the columns the
tree manager reads or writes: primary key `id`, payload `name`, the MPTT
structural columns `tree_id`, `lft`, `rght`, `level`, `parent_id`, and the
`changed` dirty flag. -/
structure DbNode where
  id : Nat
  name : String
  tree_id : Int
  lft : Nat
  rght : Nat
  level : Nat
  parent_id : Option Nat
  changed : Bool
deriving DecidableEq, Repr

/-- The structural view of a row used to compare final tree states:
everything except the payload, the parent pointer and the dirty flag. -/
structure NodeView where
  id : Nat
  tree_id : Int
  lft : Nat
  rght : Nat
  level : Nat
deriving DecidableEq, Repr

/-- Projection of a row to its structural view. -/
def proj (n : DbNode) : NodeView :=
  ⟨n.id, n.tree_id, n.lft, n.rght, n.level⟩

/-- The `{left, right, level}` assignment of a row, keyed by its id: the data
the bulk-build/sequential-insert equivalence claim compares. -/
def projLRL (n : DbNode) : Nat × Nat × Nat × Nat :=
  (n.id, n.lft, n.rght, n.level)

/-- Drop a structural view down to the `{left, right, level}` assignment. -/
def viewLRL (v : NodeView) : Nat × Nat × Nat × Nat :=
  (v.id, v.lft, v.rght, v.level)

/-- Boundary-shift arithmetic of mptt's `_manage_space`: a boundary value
strictly greater than the space target moves outward by `size`. -/
def shiftVal (size target b : Nat) : Nat :=
  if target < b then b + size else b

/-- Effect of a space-creation update on a single row: rows of the given tree
have each boundary column shifted; rows of other trees are untouched. -/
def shiftRow (size target : Nat) (tid : Int) (n : DbNode) : DbNode :=
  if n.tree_id = tid then
    { n with lft := shiftVal size target n.lft, rght := shiftVal size target n.rght }
  else n

/-- Models the mptt base manager's `_create_space(size, target, tree_id)`
(via `_manage_space`): one bulk update shifting every `lft`/`rght` value
greater than `target` outward by `size`, restricted to rows of `tree_id`. -/
def create_space (size target : Nat) (tid : Int) (db : List DbNode) : List DbNode :=
  db.map (shiftRow size target tid)

/-- Models the mptt base manager's `_create_tree_space(target_tree_id,
num_trees)`: every row whose `tree_id` is greater than `target_tree_id` has its
`tree_id` incremented by `num_trees`. -/
def base_create_tree_space (target_tree_id : Int) (num_trees : Nat) (db : List DbNode) :
    List DbNode :=
  db.map fun n =>
    if target_tree_id < n.tree_id then { n with tree_id := n.tree_id + num_trees } else n

/-- `CustomContentNodeTreeManager._create_tree_space`: raises when called with
`target_tree_id == -1` (an attempt to sort all MPTT tree roots), otherwise
delegates to the base manager's tree-space creation. -/
def create_tree_space (target_tree_id : Int) (num_trees : Nat) (db : List DbNode) :
    Except String (List DbNode) :=
  if target_tree_id = -1 then
    .error "ERROR: Calling create_tree_space with -1!"
  else
    .ok (base_create_tree_space target_tree_id num_trees db)

/-- State of the dedicated `MPTTTreeIDManager` counter table: the last
auto-increment primary key issued. -/
structure AllocState where
  counter : Nat
deriving DecidableEq, Repr

/-- Modelled from the spec: `MPTTTreeIDManager.objects.create().id` is missing
from the provided sources (it lives in `contentcuration.models`); per the spec
it is a dedicated counter row/sequence, so creating a row issues the next
auto-increment primary key, strictly larger than every previously issued one. -/
def mptt_tree_id_create (s : AllocState) : Nat × AllocState :=
  (s.counter + 1, ⟨s.counter + 1⟩)

/-- `CustomContentNodeTreeManager._get_next_tree_id`: creates one
`MPTTTreeIDManager` row and returns its primary key as the new tree id. -/
def get_next_tree_id (s : AllocState) : Int × AllocState :=
  let r := mptt_tree_id_create s
  ((r.1 : Int), r.2)

/-- The n-th tree id returned by a sequence of `get_next_tree_id` calls
starting from allocator state `s` (n = 0 is the first call's result). -/
def allocNth (s : AllocState) : Nat → Int
  | 0 => (get_next_tree_id s).1
  | n + 1 => allocNth (get_next_tree_id s).2 n

/-- In-memory nested description passed to `build_tree_nodes`: a dict of
fields (modelled by the primary key and the payload) plus a `children` list. -/
inductive NodeDesc where
  | mk (id : Nat) (name : String) (children : List NodeDesc)

mutual
/-- Number of nodes in a description. -/
def descSize : NodeDesc → Nat
  | .mk _ _ cs => 1 + descListSize cs
/-- Number of nodes in a list of descriptions. -/
def descListSize : List NodeDesc → Nat
  | [] => 0
  | d :: ds => descSize d + descListSize ds
end

mutual
/-- Pre-order list of the ids of a description. -/
def descIds : NodeDesc → List Nat
  | .mk i _ cs => i :: descListIds cs
/-- Pre-order list of the ids of a list of descriptions. -/
def descListIds : List NodeDesc → List Nat
  | [] => []
  | d :: ds => descIds d ++ descListIds ds
end

mutual
/-- Pre-order list of depths of the nodes of a description, the root having
depth `dep`. -/
def depths : NodeDesc → Nat → List Nat
  | .mk _ _ cs, dep => dep :: depthsList cs (dep + 1)
/-- Pre-order list of depths of the nodes of a list of descriptions. -/
def depthsList : List NodeDesc → Nat → List Nat
  | [], _ => []
  | d :: ds, dep => depths d dep ++ depthsList ds dep
end

mutual
/-- The `treeify` closure inside `build_tree_nodes`: assigns `tree_id`,
`level`, `lft` (the incoming cursor) to the node, recurses into the children
threading the cursor, then assigns `rght` as the final cursor + 1.  Returns the
pre-order stack of constructed rows together with the final cursor value. -/
def treeify (tid : Int) : NodeDesc → Nat → Nat → List DbNode × Nat
  | .mk i nm cs, cursor, level =>
    let r := treeifyChildren tid cs cursor (level + 1)
    (⟨i, nm, tid, cursor, r.2 + 1, level, none, false⟩ :: r.1, r.2 + 1)
/-- The `for child in children: cursor = treeify(child, cursor+1, level+1)`
loop of `treeify`, threading the cursor through the children. -/
def treeifyChildren (tid : Int) : List NodeDesc → Nat → Nat → List DbNode × Nat
  | [], c, _ => ([], c)
  | d :: ds, c, lvl =>
    let r := treeify tid d (c + 1) lvl
    let r2 := treeifyChildren tid ds r.2 lvl
    (r.1 ++ r2.1, r2.2)
end

/-- Look a row up by primary key: Django's `get`/object identity resolution,
returning the first row with the given id. -/
def lookup (db : List DbNode) (i : Nat) : Option DbNode :=
  db.find? fun n => n.id = i

/-- `CustomContentNodeTreeManager.build_tree_nodes(data, target, position)`:
derives the shared tree id and the root cursor/level from the target and
position (fresh tree id, cursor 1, level 0 when there is no target), runs
`treeify`, and, when grafting into an existing tree, performs one
`_create_space(2 * len(stack), cursor - 1, tree_id)` bulk shift.  Returns the
constructed stack, the updated database and allocator state. -/
def build_tree_nodes (data : NodeDesc) (target : Option Nat) (pos : Position)
    (a : AllocState) (db : List DbNode) :
    Except String (List DbNode × List DbNode × AllocState) :=
  match target with
  | some tId =>
    match lookup db tId with
    | none => .error "target does not exist"
    | some t =>
      let tid := t.tree_id
      let cl : Nat × Nat :=
        match pos with
        | .left => (t.lft, t.level)
        | .right => (t.rght + 1, t.level)
        | .firstChild => (t.lft + 1, t.level + 1)
        | .lastChild => (t.rght, t.level + 1)
      let stack := (treeify tid data cl.1 cl.2).1
      .ok (stack, create_space (2 * stack.length) (cl.1 - 1) tid db, a)
  | none =>
    let r := get_next_tree_id a
    let stack := (treeify r.1 data 1 0).1
    .ok (stack, db, r.2)

/-- Grafting a bulk-built subtree under a target: run `build_tree_nodes` and
persist the returned stack as one batch insert appended to the store. -/
def build_and_graft (data : NodeDesc) (targetId : Nat) (pos : Position)
    (a : AllocState) (db : List DbNode) :
    Except String (List DbNode × AllocState) :=
  match build_tree_nodes data (some targetId) pos a db with
  | .error e => .error e
  | .ok (stack, db2, a2) => .ok (db2 ++ stack, a2)

/-- A structural MPTT column, as named in the `values(...)` projection of the
locking query. -/
inductive MpttColumn where
  | treeId
  | lft
  | rght
  | level
  | parentId
deriving DecidableEq, Repr

/-- Observable effect of `lock_mptt`: whether a transaction was opened with a
`select_for_update` lock, which rows that locking query matched, and which
columns it read. -/
structure LockAction where
  txOpened : Bool
  lockedRows : List DbNode
  columnsRead : List MpttColumn
deriving DecidableEq, Repr

/-- Match predicate of the `Q` object built by `lock_mptt`: a disjunction of
`Q(tree_id=t)` over the non-null tree ids; an empty `Q()` places no condition
and matches every row. -/
def qMatchesTree (ids : List Int) (n : DbNode) : Bool :=
  ids.isEmpty || ids.contains n.tree_id

/-- `CustomContentNodeTreeManager.lock_mptt(*tree_ids)`: when the model is not
inside a delay (tracking) context and tree updates are enabled, opens a
transaction and takes a `select_for_update` lock on the rows matching the
disjunction of the non-null tree ids, reading only the five MPTT structural
columns; otherwise it just yields with no transaction and no lock.
(`set(tree_ids)` only deduplicates, which does not change which rows match.) -/
def lock_mptt (mptt_is_tracking mptt_updates_enabled : Bool)
    (tree_ids : List (Option Int)) (db : List DbNode) : LockAction :=
  if !mptt_is_tracking && mptt_updates_enabled then
    { txOpened := true
      lockedRows := db.filter (qMatchesTree (tree_ids.filterMap (fun x => x)))
      columnsRead := [.treeId, .lft, .rght, .level, .parentId] }
  else
    { txOpened := false, lockedRows := [], columnsRead := [] }

/-- mptt's `_calculate_inter_tree_move_values` space target for inserting a
fresh node relative to `t`: `rght - 1` for last-child, `lft` for first-child,
`lft - 1` for left, `rght` for right. -/
def calc_space_target (t : DbNode) : Position → Nat
  | .lastChild => t.rght - 1
  | .firstChild => t.lft
  | .left => t.lft - 1
  | .right => t.rght

/-- Level assigned to a fresh node inserted relative to `t`: one below the
target for child positions, the target's own level for sibling positions. -/
def calc_level (t : DbNode) : Position → Nat
  | .lastChild => t.level + 1
  | .firstChild => t.level + 1
  | .left => t.level
  | .right => t.level

/-- Parent assigned to a fresh node inserted relative to `t`: the target for
child positions, the target's parent for sibling positions. -/
def calc_parent (t : DbNode) : Position → Option Nat
  | .lastChild => some t.id
  | .firstChild => some t.id
  | .left => t.parent_id
  | .right => t.parent_id

/-- Whether an insertion relative to `t` hits mptt's special root-sibling
branch: a `left`/`right` position whose target is a root node. -/
def rootSibling (t : DbNode) (pos : Position) : Bool :=
  (pos == Position.left || pos == Position.right) && t.parent_id.isNone

/-- The `filter(id__in=ids).update(changed=True)` write of `_update_changes`:
every row whose id occurs (as a non-null entry) in `ids` gets its dirty flag
set; `None` entries match no row. -/
def update_changed (ids : List (Option Nat)) (db : List DbNode) : List DbNode :=
  db.map fun n => if (some n.id) ∈ ids then { n with changed := true } else n

/-- Models the mptt base manager's `insert_node` for a fresh (unsaved) node:
no target makes the node the root of a freshly allocated tree; a `left`/`right`
position on a root target goes through tree-space creation (dispatching to the
overriding `create_tree_space`, hence its `-1` check); otherwise one
`_create_space(2, space_target, tree_id)` shift opens a two-wide gap and the
node is placed in it.  The node row is saved (appended) only when `save` is
true; the in-memory instance is returned in either case. -/
def base_insert_node (nid : Nat) (nm : String) (target : Option Nat)
    (pos : Position) (save : Bool) (a : AllocState) (db : List DbNode) :
    Except String (List DbNode × AllocState × DbNode) :=
  match target with
  | none =>
    let r := get_next_tree_id a
    let node : DbNode := ⟨nid, nm, r.1, 1, 2, 0, none, false⟩
    .ok (db ++ (if save then [node] else []), r.2, node)
  | some tId =>
    match lookup db tId with
    | none => .error "target does not exist"
    | some t =>
      if rootSibling t pos then
        let tid := if pos == Position.left then t.tree_id else t.tree_id + 1
        let space := if pos == Position.left then t.tree_id - 1 else t.tree_id
        match create_tree_space space 1 db with
        | .error e => .error e
        | .ok db2 =>
          let node : DbNode := ⟨nid, nm, tid, 1, 2, 0, none, false⟩
          .ok (db2 ++ (if save then [node] else []), a, node)
      else
        let st := calc_space_target t pos
        let node : DbNode :=
          ⟨nid, nm, t.tree_id, st + 1, st + 2, calc_level t pos, calc_parent t pos, false⟩
        .ok (create_space 2 st t.tree_id db ++ (if save then [node] else []), a, node)

/-- `CustomContentNodeTreeManager.insert_node`: wraps the base insertion in
`_update_changes` (recording the node's parent id `origP` beforehand) and, when
saving, in `lock_mptt(node.tree_id, target.tree_id)` — whose argument
evaluation dereferences `target` and therefore raises when saving with no
target.  On the way out, `_update_changes` writes `changed=True` to storage for
the original parent, the new parent and the node itself (only when saving), and
always sets the in-memory node's `changed` attribute. -/
def insert_node (nid : Nat) (nm : String) (origP : Option Nat)
    (target : Option Nat) (pos : Position) (save : Bool) (a : AllocState)
    (db : List DbNode) : Except String (List DbNode × AllocState × DbNode) :=
  if save then
    match target with
    | none => .error "AttributeError: NoneType object has no tree_id"
    | some _ =>
      match base_insert_node nid nm target pos true a db with
      | .error e => .error e
      | .ok (db2, a2, node) =>
        .ok (update_changed [origP, node.parent_id, some nid] db2, a2,
          { node with changed := true })
  else
    match base_insert_node nid nm target pos false a db with
    | .error e => .error e
    | .ok (db2, a2, node) => .ok (db2, a2, { node with changed := true })

mutual
/-- Inserting a nested description one node at a time with persisting
`insert_node` calls in pre-order: the root goes at `(targetId, pos)`, then each
child is inserted as last-child of its (already inserted) parent. -/
def insertRec (d : NodeDesc) (targetId : Nat) (pos : Position) (a : AllocState)
    (db : List DbNode) : Except String (List DbNode × AllocState) :=
  match d with
  | .mk i nm cs =>
    match insert_node i nm none (some targetId) pos true a db with
    | .error e => .error e
    | .ok (db2, a2, _) => insertRecList cs i a2 db2
/-- Sequentially insert a list of descriptions as last-children of `parent`. -/
def insertRecList (ds : List NodeDesc) (parent : Nat) (a : AllocState)
    (db : List DbNode) : Except String (List DbNode × AllocState) :=
  match ds with
  | [] => .ok (db, a)
  | d :: rest =>
    match insertRec d parent .lastChild a db with
    | .error e => .error e
    | .ok (db2, a2) => insertRecList rest parent a2 db2
end

/-- The fresh node row constructed by the normal (gap-opening) branch of the
base `insert_node`. -/
def freshNode (nid : Nat) (nm : String) (t : DbNode) (pos : Position) : DbNode :=
  ⟨nid, nm, t.tree_id, calc_space_target t pos + 1, calc_space_target t pos + 2,
    calc_level t pos, calc_parent t pos, false⟩

theorem base_insert_node_none (nid : Nat) (nm : String) (pos : Position)
    (save : Bool) (a : AllocState) (db : List DbNode) :
    base_insert_node nid nm none pos save a db
      = .ok (db ++ (if save then
            [⟨nid, nm, (get_next_tree_id a).1, 1, 2, 0, none, false⟩] else []),
          (get_next_tree_id a).2,
          ⟨nid, nm, (get_next_tree_id a).1, 1, 2, 0, none, false⟩) := by
  simp [base_insert_node]

theorem base_insert_node_lookup_fail (nid : Nat) (nm : String) (tId : Nat)
    (pos : Position) (save : Bool) (a : AllocState) (db : List DbNode)
    (hl : lookup db tId = none) :
    base_insert_node nid nm (some tId) pos save a db = .error "target does not exist" := by
  simp [base_insert_node, hl]

theorem base_insert_node_normal (nid : Nat) (nm : String) (tId : Nat)
    (pos : Position) (save : Bool) (a : AllocState) (db : List DbNode)
    (t : DbNode) (hl : lookup db tId = some t) (hrs : rootSibling t pos = false) :
    base_insert_node nid nm (some tId) pos save a db
      = .ok (create_space 2 (calc_space_target t pos) t.tree_id db
            ++ (if save then [freshNode nid nm t pos] else []),
          a, freshNode nid nm t pos) := by
  simp [base_insert_node, hl, hrs, freshNode]

theorem base_insert_node_rootsib (nid : Nat) (nm : String) (tId : Nat)
    (pos : Position) (save : Bool) (a : AllocState) (db : List DbNode)
    (t : DbNode) (hl : lookup db tId = some t) (hrs : rootSibling t pos = true)
    (hsp : (if pos = Position.left then t.tree_id - 1 else t.tree_id) ≠ -1) :
    base_insert_node nid nm (some tId) pos save a db
      = .ok (base_create_tree_space
              (if pos = Position.left then t.tree_id - 1 else t.tree_id) 1 db
            ++ (if save then
              [⟨nid, nm, if pos = Position.left then t.tree_id else t.tree_id + 1,
                1, 2, 0, none, false⟩] else []),
          a,
          ⟨nid, nm, if pos = Position.left then t.tree_id else t.tree_id + 1,
            1, 2, 0, none, false⟩) := by
  simp [base_insert_node, hl, hrs, create_tree_space, hsp]

theorem base_insert_node_rootsib_err (nid : Nat) (nm : String) (tId : Nat)
    (pos : Position) (save : Bool) (a : AllocState) (db : List DbNode)
    (t : DbNode) (hl : lookup db tId = some t) (hrs : rootSibling t pos = true)
    (hsp : (if pos = Position.left then t.tree_id - 1 else t.tree_id) = -1) :
    base_insert_node nid nm (some tId) pos save a db
      = .error "ERROR: Calling create_tree_space with -1!" := by
  simp [base_insert_node, hl, hrs, create_tree_space, hsp]

theorem insert_node_ok_normal (nid : Nat) (nm : String) (origP : Option Nat)
    (tId : Nat) (pos : Position) (a : AllocState) (db : List DbNode)
    (t : DbNode) (hl : lookup db tId = some t) (hrs : rootSibling t pos = false) :
    insert_node nid nm origP (some tId) pos true a db
      = .ok (update_changed [origP, calc_parent t pos, some nid]
            (create_space 2 (calc_space_target t pos) t.tree_id db
              ++ [freshNode nid nm t pos]),
          a, { freshNode nid nm t pos with changed := true }) := by
  rw [show insert_node nid nm origP (some tId) pos true a db
      = (match base_insert_node nid nm (some tId) pos true a db with
        | .error e => .error e
        | .ok (db2, a2, node) =>
          .ok (update_changed [origP, node.parent_id, some nid] db2, a2,
            { node with changed := true })) from rfl]
  rw [base_insert_node_normal nid nm tId pos true a db t hl hrs]
  simp [freshNode]

/-- One row of the `PrerequisiteContentRelationship` table: a directed
dependency edge between two node ids. -/
structure PrereqEdge where
  prerequisite_id : Nat
  target_node_id : Nat
deriving DecidableEq, Repr

/-- The `PrerequisiteContentRelationship.objects.filter(Q(prerequisite_id=node.id)
| Q(target_node_id=node.id)).delete()` call of `_move_child_to_new_tree`:
removes every edge referencing the node on either end. -/
def delete_prereqs (nid : Nat) (es : List PrereqEdge) : List PrereqEdge :=
  es.filter fun e => !(e.prerequisite_id == nid || e.target_node_id == nid)

/-- Models the prerequisite-edge effect of a move, following the mptt base
manager's `_move_node` dispatch (outside tracking mode): a null target or a
root-sibling position or a root node goes through `_make_child_root_node` /
`_make_sibling_of_root_node` / `_move_root_node`, none of which touch
prerequisite edges; a child node moved to a target in another tree goes through
the overridden `_move_child_to_new_tree`, which deletes every edge referencing
the node; a child node moved within its tree goes through
`_move_child_within_tree`, which leaves edges alone. -/
def move_node_prereq_effect (nodeId : Nat) (target : Option Nat)
    (pos : Position) (db : List DbNode) (es : List PrereqEdge) :
    Except String (List PrereqEdge) :=
  match lookup db nodeId with
  | none => .error "node does not exist"
  | some n =>
    match target with
    | none => .ok es
    | some tId =>
      match lookup db tId with
      | none => .error "target does not exist"
      | some t =>
        if rootSibling t pos then .ok es
        else if n.parent_id.isNone then .ok es
        else if n.tree_id ≠ t.tree_id then .ok (delete_prereqs nodeId es)
        else .ok es

/-! ### Lemmas about `treeify` -/

/-- The two boundary values assigned to each row, flattened in stack order. -/
def boundaries (l : List DbNode) : List Nat :=
  l.flatMap fun n => [n.lft, n.rght]

theorem boundaries_append (l1 l2 : List DbNode) :
    boundaries (l1 ++ l2) = boundaries l1 ++ boundaries l2 := by
  simp [boundaries]

mutual
theorem treeify_cursor (tid : Int) (d : NodeDesc) (c l : Nat) :
    (treeify tid d c l).2 + 1 = c + 2 * descSize d := by
  match d with
  | .mk i nm cs =>
    have h := treeifyChildren_cursor tid cs c (l + 1)
    simp only [treeify, descSize]
    omega
theorem treeifyChildren_cursor (tid : Int) (ds : List NodeDesc) (c l : Nat) :
    (treeifyChildren tid ds c l).2 = c + 2 * descListSize ds := by
  match ds with
  | [] => simp [treeifyChildren, descListSize]
  | d :: rest =>
    have h1 := treeify_cursor tid d (c + 1) l
    have h2 := treeifyChildren_cursor tid rest (treeify tid d (c + 1) l).2 l
    simp only [treeifyChildren, descListSize]
    omega
end

mutual
theorem treeify_length (tid : Int) (d : NodeDesc) (c l : Nat) :
    (treeify tid d c l).1.length = descSize d := by
  match d with
  | .mk i nm cs =>
    have h := treeifyChildren_length tid cs c (l + 1)
    simp only [treeify, descSize, List.length_cons]
    omega
theorem treeifyChildren_length (tid : Int) (ds : List NodeDesc) (c l : Nat) :
    (treeifyChildren tid ds c l).1.length = descListSize ds := by
  match ds with
  | [] => simp [treeifyChildren, descListSize]
  | d :: rest =>
    have h1 := treeify_length tid d (c + 1) l
    have h2 := treeifyChildren_length tid rest (treeify tid d (c + 1) l).2 l
    simp only [treeifyChildren, descListSize, List.length_append]
    omega
end

mutual
theorem treeify_ids (tid : Int) (d : NodeDesc) (c l : Nat) :
    (treeify tid d c l).1.map (fun n => n.id) = descIds d := by
  match d with
  | .mk i nm cs =>
    have h := treeifyChildren_ids tid cs c (l + 1)
    simp only [treeify, descIds, List.map_cons]
    exact congrArg (i :: ·) h
theorem treeifyChildren_ids (tid : Int) (ds : List NodeDesc) (c l : Nat) :
    (treeifyChildren tid ds c l).1.map (fun n => n.id) = descListIds ds := by
  match ds with
  | [] => simp [treeifyChildren, descListIds]
  | d :: rest =>
    have h1 := treeify_ids tid d (c + 1) l
    have h2 := treeifyChildren_ids tid rest (treeify tid d (c + 1) l).2 l
    simp only [treeifyChildren, descListIds, List.map_append]
    rw [h1, h2]
end

mutual
theorem treeify_levels (tid : Int) (d : NodeDesc) (c l : Nat) :
    (treeify tid d c l).1.map (fun n => n.level) = depths d l := by
  match d with
  | .mk i nm cs =>
    have h := treeifyChildren_levels tid cs c (l + 1)
    simp only [treeify, depths, List.map_cons]
    exact congrArg (l :: ·) h
theorem treeifyChildren_levels (tid : Int) (ds : List NodeDesc) (c l : Nat) :
    (treeifyChildren tid ds c l).1.map (fun n => n.level) = depthsList ds l := by
  match ds with
  | [] => simp [treeifyChildren, depthsList]
  | d :: rest =>
    have h1 := treeify_levels tid d (c + 1) l
    have h2 := treeifyChildren_levels tid rest (treeify tid d (c + 1) l).2 l
    simp only [treeifyChildren, depthsList, List.map_append]
    rw [h1, h2]
end

mutual
theorem treeify_tree_id (tid : Int) (d : NodeDesc) (c l : Nat) :
    ∀ n ∈ (treeify tid d c l).1, n.tree_id = tid := by
  match d with
  | .mk i nm cs =>
    have h := treeifyChildren_tree_id tid cs c (l + 1)
    intro n hn
    simp only [treeify, List.mem_cons] at hn
    rcases hn with hn | hn
    · rw [hn]
    · exact h n hn
theorem treeifyChildren_tree_id (tid : Int) (ds : List NodeDesc) (c l : Nat) :
    ∀ n ∈ (treeifyChildren tid ds c l).1, n.tree_id = tid := by
  match ds with
  | [] => intro n hn; simp [treeifyChildren] at hn
  | d :: rest =>
    have h1 := treeify_tree_id tid d (c + 1) l
    have h2 := treeifyChildren_tree_id tid rest (treeify tid d (c + 1) l).2 l
    intro n hn
    simp only [treeifyChildren, List.mem_append] at hn
    rcases hn with hn | hn
    · exact h1 n hn
    · exact h2 n hn
end

mutual
theorem treeify_bounds (tid : Int) (d : NodeDesc) (c l : Nat) :
    ∀ n ∈ (treeify tid d c l).1,
      c ≤ n.lft ∧ n.lft < n.rght ∧ n.rght ≤ (treeify tid d c l).2 := by
  match d with
  | .mk i nm cs =>
    have h := treeifyChildren_bounds tid cs c (l + 1)
    have hc := treeifyChildren_cursor tid cs c (l + 1)
    intro n hn
    simp only [treeify, List.mem_cons] at hn ⊢
    rcases hn with hn | hn
    · subst hn; simp only; omega
    · have := h n hn
      omega
theorem treeifyChildren_bounds (tid : Int) (ds : List NodeDesc) (c l : Nat) :
    ∀ n ∈ (treeifyChildren tid ds c l).1,
      c + 1 ≤ n.lft ∧ n.lft < n.rght ∧ n.rght ≤ (treeifyChildren tid ds c l).2 := by
  match ds with
  | [] => intro n hn; simp [treeifyChildren] at hn
  | d :: rest =>
    have h1 := treeify_bounds tid d (c + 1) l
    have h2 := treeifyChildren_bounds tid rest (treeify tid d (c + 1) l).2 l
    have hc1 := treeify_cursor tid d (c + 1) l
    have hc2 := treeifyChildren_cursor tid rest (treeify tid d (c + 1) l).2 l
    intro n hn
    simp only [treeifyChildren, List.mem_append] at hn ⊢
    rcases hn with hn | hn
    · have := h1 n hn
      omega
    · have := h2 n hn
      omega
end

mutual
theorem treeify_boundaries (tid : Int) (d : NodeDesc) (c l : Nat) :
    (boundaries (treeify tid d c l).1).Perm (List.range' c (2 * descSize d)) := by
  match d with
  | .mk i nm cs =>
    have h := treeifyChildren_boundaries tid cs c (l + 1)
    have hc := treeifyChildren_cursor tid cs c (l + 1)
    simp only [treeify, boundaries, List.flatMap_cons] at h ⊢
    have hsz : 2 * descSize (NodeDesc.mk i nm cs) = (2 * descListSize cs + 1) + 1 := by
      simp [descSize]; omega
    rw [hsz, List.range'_succ, List.range'_concat]
    refine List.Perm.cons c ?_
    have heq : c + 1 + 1 * (2 * descListSize cs) = (treeifyChildren tid cs c (l + 1)).2 + 1 := by
      omega
    rw [heq]
    have step1 : (((treeifyChildren tid cs c (l + 1)).2 + 1)
          :: (treeifyChildren tid cs c (l + 1)).1.flatMap (fun n => [n.lft, n.rght])).Perm
        ((treeifyChildren tid cs c (l + 1)).1.flatMap (fun n => [n.lft, n.rght])
            ++ [(treeifyChildren tid cs c (l + 1)).2 + 1]) :=
      (List.perm_append_singleton _ _).symm
    have step2 : ((treeifyChildren tid cs c (l + 1)).1.flatMap (fun n => [n.lft, n.rght])
            ++ [(treeifyChildren tid cs c (l + 1)).2 + 1]).Perm
        (List.range' (c + 1) (2 * descListSize cs)
            ++ [(treeifyChildren tid cs c (l + 1)).2 + 1]) :=
      List.Perm.append_right _ h
    exact step1.trans step2
theorem treeifyChildren_boundaries (tid : Int) (ds : List NodeDesc) (c l : Nat) :
    (boundaries (treeifyChildren tid ds c l).1).Perm
      (List.range' (c + 1) (2 * descListSize ds)) := by
  match ds with
  | [] => simp [treeifyChildren, boundaries, descListSize]
  | d :: rest =>
    have h1 := treeify_boundaries tid d (c + 1) l
    have h2 := treeifyChildren_boundaries tid rest (treeify tid d (c + 1) l).2 l
    have hc1 := treeify_cursor tid d (c + 1) l
    simp only [treeifyChildren, boundaries] at h1 h2 ⊢
    rw [List.flatMap_append]
    have hr : List.range' (c + 1) (2 * descSize d)
        ++ List.range' ((c + 1) + (2 * descSize d)) (2 * descListSize rest)
        = List.range' (c + 1) (2 * descListSize rest + 2 * descSize d) :=
      List.range'_append_1 (c + 1) (2 * descSize d) (2 * descListSize rest)
    have hgoal : 2 * descListSize (d :: rest)
        = 2 * descListSize rest + 2 * descSize d := by
      simp [descListSize]; omega
    rw [hgoal, ← hr]
    refine List.Perm.append h1 ?_
    have heq : (treeify tid d (c + 1) l).2 = c + 1 + 2 * descSize d - 1 := by omega
    have heq2 : c + 1 + 2 * descSize d = (treeify tid d (c + 1) l).2 + 1 := by omega
    rw [heq2]
    exact h2
end

/-! ### Claim theorems: error handling, locking, allocation -/

/-- C3 (amended): `_create_tree_space` raises exactly on the sentinel `-1`;
every other `target_tree_id` (including `0` and other non-positive values)
does not raise and delegates to the base manager's tree-space creation. -/
theorem create_tree_space_spec (t : Int) (n : Nat) (db : List DbNode) :
    (t = -1 → ∃ msg, create_tree_space t n db = .error msg) ∧
    (t ≠ -1 → create_tree_space t n db = .ok (base_create_tree_space t n db)) := by
  constructor
  · intro h
    exact ⟨"ERROR: Calling create_tree_space with -1!", by simp [create_tree_space, h]⟩
  · intro h
    simp [create_tree_space, h]

/-- Witness for C3's amended theorem at `t = 7`. -/
theorem create_tree_space_spec_witness :
    create_tree_space 7 1 [] = .ok (base_create_tree_space 7 1 []) :=
  (create_tree_space_spec 7 1 []).2 (by decide)

/-- C3 (counterexample): the claim says every `tree_id ≤ 0` raises, but
`_create_tree_space` does not raise at `0`: it delegates normally. -/
theorem create_tree_space_zero_no_raise :
    (0 : Int) ≤ 0 ∧ create_tree_space 0 1 [] = .ok [] := by
  constructor
  · decide
  · rfl

/-- C5: `lock_mptt` opens a transaction and takes the row lock exactly when
the model is not tracking (`_mptt_is_tracking` false) and tree updates are
enabled; in every other mode it is a pure no-op passthrough with no
transaction and no locked rows. -/
theorem lock_mptt_active_iff (tr en : Bool) (ids : List (Option Int))
    (db : List DbNode) :
    ((lock_mptt tr en ids db).txOpened = true ↔ (tr = false ∧ en = true)) ∧
    (¬(tr = false ∧ en = true) →
      lock_mptt tr en ids db = ⟨false, [], []⟩) := by
  cases tr <;> cases en <;> simp [lock_mptt]

/-- Witness for C5's theorem in tracking (bulk) mode. -/
theorem lock_mptt_active_iff_witness :
    lock_mptt true true [some 1] [] = ⟨false, [], []⟩ :=
  (lock_mptt_active_iff true true [some 1] []).2 (by simp)

theorem allocNth_eq (n : Nat) : ∀ s : AllocState,
    allocNth s n = ((s.counter + n + 1 : Nat) : Int) := by
  induction n with
  | zero => intro s; simp [allocNth, get_next_tree_id, mptt_tree_id_create]
  | succ k ih =>
    intro s
    simp only [allocNth]
    rw [ih]
    simp [get_next_tree_id, mptt_tree_id_create]
    omega

/-- C8: every tree id issued by `_get_next_tree_id` is strictly positive, and
across any sequence of calls the issued ids are strictly increasing, so no
tree id is ever reused for a distinct tree. -/
theorem get_next_tree_id_monotone (s : AllocState) (n : Nat) :
    0 < allocNth s n ∧ allocNth s n < allocNth s (n + 1) := by
  rw [allocNth_eq n s, allocNth_eq (n + 1) s]
  constructor
  · exact_mod_cast Nat.succ_pos _
  · exact_mod_cast by omega

/-- C9: calling `insert_node` with `save=True` and no target fails (the lock
acquisition dereferences `target.tree_id`) before any mutation, while the
target-less new-root case succeeds when `save=False`. -/
theorem insert_node_save_requires_target (nid : Nat) (nm : String)
    (origP : Option Nat) (pos : Position) (a : AllocState) (db : List DbNode) :
    (∃ msg, insert_node nid nm origP none pos true a db = .error msg) ∧
    (∃ r, insert_node nid nm origP none pos false a db = .ok r) := by
  constructor
  · exact ⟨"AttributeError: NoneType object has no tree_id", by simp [insert_node]⟩
  · refine ⟨?_, ?_⟩
    · exact (db ++ [], (get_next_tree_id a).2,
        { id := nid, name := nm, tree_id := (get_next_tree_id a).1, lft := 1, rght := 2,
          level := 0, parent_id := none, changed := true })
    · simp [insert_node, base_insert_node]

/-! ### Claim theorems: lock footprint, prerequisite edges, dirty flags -/

/-- C4 (amended): when at least one non-null tree id is supplied (and locking
is active), the locking query matches exactly the rows whose `tree_id` is one
of the supplied non-null ids — no row of any other tree is locked — and it
reads only the five structural columns.  (With no non-null id the `Q()` filter
is empty and matches every row, see the counterexample.) -/
theorem lock_mptt_locks_exactly (ids : List (Option Int)) (db : List DbNode)
    (h : ids.filterMap (fun x => x) ≠ []) :
    (lock_mptt false true ids db).lockedRows
      = db.filter (fun n => (ids.filterMap (fun x => x)).contains n.tree_id) ∧
    (∀ r ∈ (lock_mptt false true ids db).lockedRows, some r.tree_id ∈ ids) ∧
    (lock_mptt false true ids db).columnsRead
      = [.treeId, .lft, .rght, .level, .parentId] := by
  have hq : ∀ n : DbNode, qMatchesTree (ids.filterMap (fun x => x)) n
      = (ids.filterMap (fun x => x)).contains n.tree_id := by
    intro n
    simp only [qMatchesTree]
    have hne : (ids.filterMap (fun x => x)).isEmpty = false := by
      cases hyp : (ids.filterMap (fun x => x)).isEmpty
      · rfl
      · exact absurd (List.isEmpty_iff.mp hyp) h
    rw [hne]
    simp
  refine ⟨?_, ?_, rfl⟩
  · simp only [lock_mptt, Bool.not_false, Bool.true_and, if_pos rfl]
    exact List.filter_congr fun n _ => hq n
  · intro r hr
    simp only [lock_mptt, Bool.not_false, Bool.true_and, if_pos rfl] at hr
    have := List.of_mem_filter hr
    rw [hq r] at this
    have hmem : r.tree_id ∈ ids.filterMap (fun x => x) := by
      simpa [List.contains_iff_exists_mem_beq] using this
    rcases List.mem_filterMap.mp hmem with ⟨o, ho, hoo⟩
    cases o with
    | none => simp at hoo
    | some v => simp at hoo; subst hoo; exact ho

/-- Witness for C4's amended theorem: locking tree 1 in a two-tree store
locks exactly the tree-1 row. -/
theorem lock_mptt_locks_exactly_witness :
    ([some (1 : Int)].filterMap (fun x => x) ≠ []) ∧
    (lock_mptt false true [some 1]
        [⟨1, "r", 1, 1, 2, 0, none, false⟩, ⟨2, "s", 2, 1, 2, 0, none, false⟩]).lockedRows
      = [⟨1, "r", 1, 1, 2, 0, none, false⟩] := by
  refine ⟨by decide, ?_⟩
  have h := lock_mptt_locks_exactly [some 1]
    [⟨1, "r", 1, 1, 2, 0, none, false⟩, ⟨2, "s", 2, 1, 2, 0, none, false⟩] (by decide)
  rw [h.1]
  decide

/-- C4 (counterexample): a call whose tree ids are all null produces an empty
`Q()`, which matches — and therefore locks — every row, including rows of
trees outside the given collection. -/
theorem lock_mptt_all_null_locks_everything :
    (([none] : List (Option Int)).filterMap (fun x => x) = []) ∧
    (lock_mptt false true [none] [⟨5, "x", 5, 1, 2, 0, none, false⟩]).lockedRows
      = [⟨5, "x", 5, 1, 2, 0, none, false⟩] := by
  decide

/-- C7 (counterexample): moving the root node `X` of tree 1 under a target in
tree 2 is a cross-tree move, but it dispatches to `_move_root_node`, which
leaves the prerequisite edge referencing `X` intact — against the claim that
every cross-tree move deletes all edges referencing the moved node. -/
theorem move_root_cross_tree_keeps_edges :
    ((lookup [⟨1, "X", 1, 1, 2, 0, none, false⟩, ⟨2, "T", 2, 1, 2, 0, none, false⟩] 1).map
        (fun n => n.tree_id) = some 1) ∧
    ((lookup [⟨1, "X", 1, 1, 2, 0, none, false⟩, ⟨2, "T", 2, 1, 2, 0, none, false⟩] 2).map
        (fun n => n.tree_id) = some 2) ∧
    move_node_prereq_effect 1 (some 2) Position.lastChild
        [⟨1, "X", 1, 1, 2, 0, none, false⟩, ⟨2, "T", 2, 1, 2, 0, none, false⟩]
        [⟨1, 7⟩]
      = .ok [⟨1, 7⟩] := by
  refine ⟨rfl, rfl, rfl⟩

/-- C7 (amended): a cross-tree move of a non-root node to a non-root-sibling
position deletes exactly the prerequisite edges referencing the node on either
end, keeping all others; a move within the same tree leaves the edge table
unchanged.  (Root-node, new-root and root-sibling moves never delete edges.) -/
theorem move_node_prereq_spec (nodeId tId : Nat) (pos : Position)
    (db : List DbNode) (es : List PrereqEdge) (n t : DbNode)
    (hn : lookup db nodeId = some n) (ht : lookup db tId = some t)
    (hrs : rootSibling t pos = false) (hnp : n.parent_id ≠ none) :
    (n.tree_id ≠ t.tree_id →
      ∃ es2, move_node_prereq_effect nodeId (some tId) pos db es = .ok es2 ∧
        ∀ e, e ∈ es2 ↔ e ∈ es ∧ e.prerequisite_id ≠ nodeId ∧ e.target_node_id ≠ nodeId) ∧
    (n.tree_id = t.tree_id →
      move_node_prereq_effect nodeId (some tId) pos db es = .ok es) := by
  have hnp2 : n.parent_id.isNone = false := by
    cases hpn : n.parent_id with
    | none => exact absurd hpn hnp
    | some v => rfl
  constructor
  · intro hne
    refine ⟨delete_prereqs nodeId es, ?_, ?_⟩
    · simp [move_node_prereq_effect, hn, ht, hrs, hnp2, hne]
    · intro e
      simp only [delete_prereqs, List.mem_filter]
      constructor
      · rintro ⟨he, hb⟩
        simp only [Bool.not_eq_eq_eq_not, Bool.not_true, Bool.or_eq_false_iff,
          beq_eq_false_iff_ne] at hb
        exact ⟨he, hb.1, hb.2⟩
      · rintro ⟨he, h1, h2⟩
        refine ⟨he, ?_⟩
        simp only [Bool.not_eq_eq_eq_not, Bool.not_true, Bool.or_eq_false_iff,
          beq_eq_false_iff_ne]
        exact ⟨h1, h2⟩
  · intro heq
    simp [move_node_prereq_effect, hn, ht, hrs, hnp2, heq]

/-- Witness for C7's amended theorem: a cross-tree child move deleting the one
edge that references the moved node and keeping the unrelated one. -/
theorem move_node_prereq_spec_witness :
    ∃ es2, move_node_prereq_effect 2 (some 3) Position.lastChild
        [⟨1, "R", 1, 1, 4, 0, none, false⟩, ⟨2, "X", 1, 2, 3, 1, some 1, false⟩,
         ⟨3, "T", 2, 1, 2, 0, none, false⟩]
        [⟨2, 9⟩, ⟨8, 9⟩]
      = .ok es2 ∧ (⟨2, 9⟩ : PrereqEdge) ∉ es2 ∧ (⟨8, 9⟩ : PrereqEdge) ∈ es2 := by
  have h := (move_node_prereq_spec 2 3 Position.lastChild
    [⟨1, "R", 1, 1, 4, 0, none, false⟩, ⟨2, "X", 1, 2, 3, 1, some 1, false⟩,
     ⟨3, "T", 2, 1, 2, 0, none, false⟩]
    [⟨2, 9⟩, ⟨8, 9⟩] ⟨2, "X", 1, 2, 3, 1, some 1, false⟩ ⟨3, "T", 2, 1, 2, 0, none, false⟩
    rfl rfl rfl (by decide)).1 (by decide)
  rcases h with ⟨es2, heq, hmem⟩
  refine ⟨es2, heq, ?_, ?_⟩
  · intro hc
    have := (hmem ⟨2, 9⟩).mp hc
    simp at this
  · exact (hmem ⟨8, 9⟩).mpr (by decide)

theorem map_changed_of_preserve (f : DbNode → DbNode)
    (hf : ∀ n, (f n).changed = n.changed) (db : List DbNode) :
    (db.map f).map (fun n => n.changed) = db.map (fun n => n.changed) := by
  rw [List.map_map]
  exact List.map_congr_left fun n _ => hf n

theorem base_create_tree_space_changed (sp : Int) (k : Nat) (db : List DbNode) :
    (base_create_tree_space sp k db).map (fun n => n.changed)
      = db.map (fun n => n.changed) := by
  simp only [base_create_tree_space]
  rw [List.map_map]
  exact List.map_congr_left fun n _ => by
    simp only [Function.comp]
    split <;> rfl

theorem create_space_changed (k s : Nat) (tid : Int) (db : List DbNode) :
    (create_space k s tid db).map (fun n => n.changed)
      = db.map (fun n => n.changed) := by
  simp only [create_space]
  rw [List.map_map]
  exact List.map_congr_left fun n _ => by
    simp only [Function.comp, shiftRow]
    split <;> rfl

theorem getElem_pres_base_cts (sp : Int) (k : Nat) (db : List DbNode) (i : Nat)
    (hi : i < db.length) :
    ∃ r x, db[i]? = some r ∧ (base_create_tree_space sp k db)[i]? = some x ∧
      x.id = r.id ∧ x.changed = r.changed := by
  have hx : (base_create_tree_space sp k db)[i]?
      = some (if sp < db[i].tree_id then { db[i] with tree_id := db[i].tree_id + k }
          else db[i]) := by
    simp only [base_create_tree_space, List.getElem?_map, List.getElem?_eq_getElem hi]
    rfl
  refine ⟨db[i], _, List.getElem?_eq_getElem hi, hx, ?_, ?_⟩ <;> split <;> rfl

theorem getElem_pres_create_space (k s : Nat) (tid : Int) (db : List DbNode)
    (i : Nat) (hi : i < db.length) :
    ∃ r x, db[i]? = some r ∧ (create_space k s tid db)[i]? = some x ∧
      x.id = r.id ∧ x.changed = r.changed := by
  have hx : (create_space k s tid db)[i]? = some (shiftRow k s tid db[i]) := by
    simp only [create_space, List.getElem?_map, List.getElem?_eq_getElem hi]
    rfl
  refine ⟨db[i], shiftRow k s tid db[i], List.getElem?_eq_getElem hi, hx, ?_, ?_⟩ <;>
    (simp only [shiftRow]; split <;> rfl)

/-- C10: with `save=False`, `insert_node` writes no dirty flag to storage —
every row's `changed` column is exactly what it was — while the in-memory
node's `changed` attribute is still set to true. -/
theorem insert_node_save_false_changed_frame (nid : Nat) (nm : String)
    (origP : Option Nat) (target : Option Nat) (pos : Position) (a : AllocState)
    (db db2 : List DbNode) (a2 : AllocState) (mem : DbNode)
    (h : insert_node nid nm origP target pos false a db = .ok (db2, a2, mem)) :
    db2.map (fun n => n.changed) = db.map (fun n => n.changed) ∧
    mem.changed = true := by
  simp only [insert_node, Bool.false_eq_true, if_false] at h
  cases target with
  | none =>
    rw [base_insert_node_none nid nm pos false a db] at h
    simp only [Bool.false_eq_true, if_false, List.append_nil, Except.ok.injEq,
      Prod.mk.injEq] at h
    obtain ⟨hdb, ha, hmem⟩ := h
    rw [← hdb, ← hmem]
    exact ⟨rfl, rfl⟩
  | some tId =>
    cases hl : lookup db tId with
    | none =>
      rw [base_insert_node_lookup_fail nid nm tId pos false a db hl] at h
      exact absurd h (by simp)
    | some t =>
      by_cases hrs : rootSibling t pos = true
      · by_cases hsp : (if pos = Position.left then t.tree_id - 1 else t.tree_id) = -1
        · rw [base_insert_node_rootsib_err nid nm tId pos false a db t hl hrs hsp] at h
          exact absurd h (by simp)
        · rw [base_insert_node_rootsib nid nm tId pos false a db t hl hrs hsp] at h
          simp only [Bool.false_eq_true, if_false, List.append_nil, Except.ok.injEq,
            Prod.mk.injEq] at h
          obtain ⟨hdb, ha, hmem⟩ := h
          rw [← hdb, ← hmem]
          exact ⟨base_create_tree_space_changed _ _ db, rfl⟩
      · rw [base_insert_node_normal nid nm tId pos false a db t hl
          (by simpa using hrs)] at h
        simp only [Bool.false_eq_true, if_false, List.append_nil, Except.ok.injEq,
          Prod.mk.injEq] at h
        obtain ⟨hdb, ha, hmem⟩ := h
        rw [← hdb, ← hmem]
        exact ⟨create_space_changed _ _ _ db, rfl⟩

/-- Witness for C10 at a concrete unsaved insert. -/
theorem insert_node_save_false_changed_frame_witness :
    (([⟨1, "T", 1, 1, 4, 0, none, true⟩, ⟨2, "c", 1, 2, 3, 1, some 1, false⟩] :
        List DbNode).map (fun n => n.changed) = [true, false]) ∧
    ((insert_node 9 "n" none (some 1) Position.lastChild false ⟨0⟩
        [⟨1, "T", 1, 1, 4, 0, none, true⟩, ⟨2, "c", 1, 2, 3, 1, some 1, false⟩]).map
      (fun r => (r.1.map (fun n => n.changed), r.2.2.changed)) = .ok ([true, false], true)) := by
  refine ⟨rfl, ?_⟩
  have h := insert_node_save_false_changed_frame 9 "n" none (some 1) Position.lastChild ⟨0⟩
    [⟨1, "T", 1, 1, 4, 0, none, true⟩, ⟨2, "c", 1, 2, 3, 1, some 1, false⟩]
    (create_space 2 3 1 [⟨1, "T", 1, 1, 4, 0, none, true⟩, ⟨2, "c", 1, 2, 3, 1, some 1, false⟩])
    ⟨0⟩ ⟨9, "n", 1, 4, 5, 1, some 1, true⟩ rfl
  have h2 : (create_space 2 3 1 [⟨1, "T", 1, 1, 4, 0, none, true⟩,
      ⟨2, "c", 1, 2, 3, 1, some 1, false⟩]).map (fun n => n.changed) = [true, false] :=
    h.1.trans rfl
  show Except.ok ((create_space 2 3 1 [⟨1, "T", 1, 1, 4, 0, none, true⟩,
      ⟨2, "c", 1, 2, 3, 1, some 1, false⟩]).map (fun n => n.changed), true)
    = Except.ok ([true, false], true)
  rw [h2]

theorem update_changed_append_node (U : List (Option Nat)) (X : List DbNode)
    (node : DbNode) (db : List DbNode) (hlen : X.length = db.length)
    (hX : ∀ i, i < db.length → ∃ r x, db[i]? = some r ∧ X[i]? = some x ∧
      x.id = r.id ∧ x.changed = r.changed) :
    (update_changed U (X ++ [node])).length = db.length + 1 ∧
    (∀ i, i < db.length → ∃ r r2, db[i]? = some r ∧
        (update_changed U (X ++ [node]))[i]? = some r2 ∧ r2.id = r.id ∧
        r2.changed = (r.changed || decide (some r.id ∈ U))) ∧
    (∃ rn, (update_changed U (X ++ [node]))[db.length]? = some rn ∧
        rn.id = node.id ∧
        rn.changed = (node.changed || decide (some node.id ∈ U))) := by
  refine ⟨by simp [update_changed, hlen], ?_, ?_⟩
  · intro i hi
    obtain ⟨r, x, hr, hx, hid, hch⟩ := hX i hi
    refine ⟨r, (if some x.id ∈ U then { x with changed := true } else x), hr, ?_, ?_, ?_⟩
    · simp only [update_changed, List.getElem?_map]
      rw [List.getElem?_append_left (by omega), hx]
      rfl
    · split <;> simp [hid]
    · rw [hid]
      split
      · rename_i hmem
        simp [hmem]
      · rename_i hmem
        simp [hmem, hch]
  · refine ⟨(if some node.id ∈ U then { node with changed := true } else node), ?_, ?_, ?_⟩
    · simp only [update_changed, List.getElem?_map]
      rw [show db.length = X.length from hlen.symm, List.getElem?_concat_length]
      rfl
    · split <;> rfl
    · split
      · rename_i hmem
        simp [hmem]
      · rename_i hmem
        simp [hmem]

/-- C6: a successful `insert_node` with `save=True` records the node's parent
before the operation and afterwards writes `changed = true` to storage for
exactly the rows whose id is the original parent, the new parent
(`mem.parent_id`) or the inserted node — other rows keep their flag — and sets
the in-memory node's `changed` attribute. -/
theorem insert_node_save_marks_changed (nid : Nat) (nm : String)
    (origP : Option Nat) (target : Option Nat) (pos : Position) (a : AllocState)
    (db db2 : List DbNode) (a2 : AllocState) (mem : DbNode)
    (h : insert_node nid nm origP target pos true a db = .ok (db2, a2, mem)) :
    mem.changed = true ∧
    db2.length = db.length + 1 ∧
    (∀ i, i < db.length → ∃ r r2, db[i]? = some r ∧ db2[i]? = some r2 ∧
        r2.id = r.id ∧
        r2.changed = (r.changed || decide (some r.id ∈ [origP, mem.parent_id, some nid]))) ∧
    (∃ rn, db2[db.length]? = some rn ∧ rn.id = nid ∧ rn.changed = true) := by
  cases target with
  | none =>
    rw [show insert_node nid nm origP none pos true a db
      = .error "AttributeError: NoneType object has no tree_id" from rfl] at h
    exact absurd h (by simp)
  | some tId =>
    cases hl : lookup db tId with
    | none =>
      rw [show insert_node nid nm origP (some tId) pos true a db
        = (match base_insert_node nid nm (some tId) pos true a db with
          | .error e => .error e
          | .ok (db3, a3, node) =>
            .ok (update_changed [origP, node.parent_id, some nid] db3, a3,
              { node with changed := true })) from rfl,
        base_insert_node_lookup_fail nid nm tId pos true a db hl] at h
      exact absurd h (by simp)
    | some t =>
      by_cases hrs : rootSibling t pos = true
      · by_cases hsp : (if pos = Position.left then t.tree_id - 1 else t.tree_id) = -1
        · rw [show insert_node nid nm origP (some tId) pos true a db
            = (match base_insert_node nid nm (some tId) pos true a db with
              | .error e => .error e
              | .ok (db3, a3, node) =>
                .ok (update_changed [origP, node.parent_id, some nid] db3, a3,
                  { node with changed := true })) from rfl,
            base_insert_node_rootsib_err nid nm tId pos true a db t hl hrs hsp] at h
          exact absurd h (by simp)
        · rw [show insert_node nid nm origP (some tId) pos true a db
            = (match base_insert_node nid nm (some tId) pos true a db with
              | .error e => .error e
              | .ok (db3, a3, node) =>
                .ok (update_changed [origP, node.parent_id, some nid] db3, a3,
                  { node with changed := true })) from rfl,
            base_insert_node_rootsib nid nm tId pos true a db t hl hrs hsp] at h
          simp only [if_pos rfl, Except.ok.injEq, Prod.mk.injEq] at h
          obtain ⟨hdb, ha, hmem⟩ := h
          have hmemp : mem.parent_id = none := by rw [← hmem]
          have hmemch : mem.changed = true := by rw [← hmem]
          refine ⟨hmemch, ?_⟩
          rw [← hdb, hmemp]
          have key := update_changed_append_node [origP, none, some nid]
            (base_create_tree_space
              (if pos = Position.left then t.tree_id - 1 else t.tree_id) 1 db)
            ⟨nid, nm, if pos = Position.left then t.tree_id else t.tree_id + 1,
              1, 2, 0, none, false⟩ db
            (by simp [base_create_tree_space])
            (fun i hi => getElem_pres_base_cts _ _ db i hi)
          refine ⟨key.1, key.2.1, ?_⟩
          obtain ⟨rn, h1, h2, h3⟩ := key.2.2
          refine ⟨rn, h1, h2, ?_⟩
          rw [h3]
          simp
      · rw [insert_node_ok_normal nid nm origP tId pos a db t hl
          (by simpa using hrs)] at h
        simp only [Except.ok.injEq, Prod.mk.injEq] at h
        obtain ⟨hdb, ha, hmem⟩ := h
        have hmemp : mem.parent_id = calc_parent t pos := by
          rw [← hmem]
          rfl
        have hmemch : mem.changed = true := by rw [← hmem]
        refine ⟨hmemch, ?_⟩
        rw [← hdb, hmemp]
        have key := update_changed_append_node [origP, calc_parent t pos, some nid]
          (create_space 2 (calc_space_target t pos) t.tree_id db)
          (freshNode nid nm t pos) db
          (by simp [create_space])
          (fun i hi => getElem_pres_create_space _ _ _ db i hi)
        refine ⟨key.1, key.2.1, ?_⟩
        obtain ⟨rn, h1, h2, h3⟩ := key.2.2
        refine ⟨rn, h1, by rw [h2]; rfl, ?_⟩
        rw [h3]
        simp [freshNode]

/-- Witness for C6: inserting `D` as last child of `A` in the three-node tree
marks `A` (old+new parent is `None`/`A`) and `D` as changed and leaves `B`, `C`
untouched. -/
theorem insert_node_save_marks_changed_witness :
    insert_node 4 "D" none (some 1) Position.lastChild true ⟨0⟩
        [⟨1, "A", 1, 1, 10, 0, none, false⟩, ⟨2, "B", 1, 2, 5, 1, some 1, false⟩,
         ⟨3, "Cc", 1, 6, 9, 1, some 1, false⟩]
      = .ok ([⟨1, "A", 1, 1, 12, 0, none, true⟩, ⟨2, "B", 1, 2, 5, 1, some 1, false⟩,
          ⟨3, "Cc", 1, 6, 9, 1, some 1, false⟩, ⟨4, "D", 1, 10, 11, 1, some 1, true⟩],
        ⟨0⟩, ⟨4, "D", 1, 10, 11, 1, some 1, true⟩) ∧
    (⟨4, "D", 1, 10, 11, 1, some 1, true⟩ : DbNode).changed = true ∧
    ([⟨1, "A", 1, 1, 12, 0, none, true⟩, ⟨2, "B", 1, 2, 5, 1, some 1, false⟩,
      ⟨3, "Cc", 1, 6, 9, 1, some 1, false⟩, ⟨4, "D", 1, 10, 11, 1, some 1, true⟩] :
        List DbNode).length
      = ([⟨1, "A", 1, 1, 10, 0, none, false⟩, ⟨2, "B", 1, 2, 5, 1, some 1, false⟩,
          ⟨3, "Cc", 1, 6, 9, 1, some 1, false⟩] : List DbNode).length + 1 := by
  have heq : insert_node 4 "D" none (some 1) Position.lastChild true ⟨0⟩
      [⟨1, "A", 1, 1, 10, 0, none, false⟩, ⟨2, "B", 1, 2, 5, 1, some 1, false⟩,
       ⟨3, "Cc", 1, 6, 9, 1, some 1, false⟩]
      = .ok ([⟨1, "A", 1, 1, 12, 0, none, true⟩, ⟨2, "B", 1, 2, 5, 1, some 1, false⟩,
          ⟨3, "Cc", 1, 6, 9, 1, some 1, false⟩, ⟨4, "D", 1, 10, 11, 1, some 1, true⟩],
        ⟨0⟩, ⟨4, "D", 1, 10, 11, 1, some 1, true⟩) := rfl
  have h := insert_node_save_marks_changed 4 "D" none (some 1) Position.lastChild ⟨0⟩
    [⟨1, "A", 1, 1, 10, 0, none, false⟩, ⟨2, "B", 1, 2, 5, 1, some 1, false⟩,
     ⟨3, "Cc", 1, 6, 9, 1, some 1, false⟩]
    [⟨1, "A", 1, 1, 12, 0, none, true⟩, ⟨2, "B", 1, 2, 5, 1, some 1, false⟩,
     ⟨3, "Cc", 1, 6, 9, 1, some 1, false⟩, ⟨4, "D", 1, 10, 11, 1, some 1, true⟩]
    ⟨0⟩ ⟨4, "D", 1, 10, 11, 1, some 1, true⟩ heq
  exact ⟨heq, h.1, h.2.1⟩

/-- C2: building a nested description as a new root (no target) gives every
node the one freshly allocated tree id, assigns boundary values that are
exactly a permutation of `1..2k` with `left < right` on every node, assigns
each node's level as its depth from the description root, and in particular
`{R, [a, b]}` yields `R(1,6,0)`, `a(2,3,1)`, `b(4,5,1)`. -/
theorem build_tree_nodes_new_root_spec (d : NodeDesc) (pos : Position)
    (a : AllocState) (db : List DbNode) :
    ∃ stack a2, build_tree_nodes d none pos a db = .ok (stack, db, a2) ∧
      a2 = (get_next_tree_id a).2 ∧
      (∀ n ∈ stack, n.tree_id = (get_next_tree_id a).1 ∧ n.lft < n.rght) ∧
      (boundaries stack).Perm (List.range' 1 (2 * descSize d)) ∧
      stack.map (fun n => n.level) = depths d 0 ∧
      (build_tree_nodes (NodeDesc.mk 1 "R" [NodeDesc.mk 2 "a" [], NodeDesc.mk 3 "b" []])
          none Position.lastChild ⟨0⟩ []).map (fun r => (r.1.map proj, r.2.2))
        = .ok ([⟨1, 1, 1, 6, 0⟩, ⟨2, 1, 2, 3, 1⟩, ⟨3, 1, 4, 5, 1⟩], (⟨1⟩ : AllocState)) := by
  refine ⟨(treeify (get_next_tree_id a).1 d 1 0).1, (get_next_tree_id a).2, rfl, rfl,
    ?_, ?_, ?_, rfl⟩
  · intro n hn
    exact ⟨treeify_tree_id (get_next_tree_id a).1 d 1 0 n hn,
      (treeify_bounds (get_next_tree_id a).1 d 1 0 n hn).2.1⟩
  · exact treeify_boundaries (get_next_tree_id a).1 d 1 0
  · exact treeify_levels (get_next_tree_id a).1 d 1 0

/-! ### View-level machinery for the bulk-build / sequential-insert equivalence -/

/-- Structural view of a whole store. -/
def projDb (db : List DbNode) : List NodeView :=
  db.map proj

/-- `shiftRow` transported to structural views. -/
def vshiftRow (k s : Nat) (tid : Int) (v : NodeView) : NodeView :=
  if v.tree_id = tid then
    { v with lft := shiftVal k s v.lft, rght := shiftVal k s v.rght }
  else v

/-- `create_space` transported to structural views. -/
def vcreate (k s : Nat) (tid : Int) (l : List NodeView) : List NodeView :=
  l.map (vshiftRow k s tid)

/-- View-level lookup by id. -/
def vlookup (l : List NodeView) (i : Nat) : Option NodeView :=
  l.find? fun v => v.id = i

theorem proj_shiftRow (k s : Nat) (tid : Int) (n : DbNode) :
    proj (shiftRow k s tid n) = vshiftRow k s tid (proj n) := by
  simp only [shiftRow, vshiftRow, proj]
  split <;> simp_all

theorem projDb_append (l1 l2 : List DbNode) :
    projDb (l1 ++ l2) = projDb l1 ++ projDb l2 := by
  simp [projDb]

theorem projDb_create_space (k s : Nat) (tid : Int) (db : List DbNode) :
    projDb (create_space k s tid db) = vcreate k s tid (projDb db) := by
  simp only [projDb, create_space, vcreate, List.map_map]
  exact List.map_congr_left fun n _ => proj_shiftRow k s tid n

theorem projDb_update_changed (U : List (Option Nat)) (db : List DbNode) :
    projDb (update_changed U db) = projDb db := by
  simp only [projDb, update_changed, List.map_map]
  exact List.map_congr_left fun n _ => by
    simp only [Function.comp]
    split <;> rfl

theorem shiftVal_comp (k k' s s' b : Nat) (h1 : s ≤ s') (h2 : s' ≤ s + k) :
    shiftVal k' s' (shiftVal k s b) = shiftVal (k + k') s b := by
  unfold shiftVal
  rcases Nat.lt_or_ge s b with hb | hb
  · rw [if_pos hb, if_pos (show s' < b + k by omega), if_pos hb]
    omega
  · rw [if_neg (show ¬ s < b by omega), if_neg (show ¬ s' < b by omega),
      if_neg (show ¬ s < b by omega)]

theorem vshiftRow_comp (k k' s s' : Nat) (tid : Int) (v : NodeView)
    (h1 : s ≤ s') (h2 : s' ≤ s + k) :
    vshiftRow k' s' tid (vshiftRow k s tid v) = vshiftRow (k + k') s tid v := by
  by_cases ht : v.tree_id = tid
  · simp only [vshiftRow, ht, eq_self_iff_true, if_true]
    rw [shiftVal_comp k k' s s' v.lft h1 h2, shiftVal_comp k k' s s' v.rght h1 h2]
  · simp only [vshiftRow, ht, if_false]

theorem vcreate_comp (k k' s s' : Nat) (tid : Int) (l : List NodeView)
    (h1 : s ≤ s') (h2 : s' ≤ s + k) :
    vcreate k' s' tid (vcreate k s tid l) = vcreate (k + k') s tid l := by
  simp only [vcreate, List.map_map]
  exact List.map_congr_left fun v _ => vshiftRow_comp k k' s s' tid v h1 h2

theorem map_eq_self_of_eq {α : Type} (f : α → α) (l : List α)
    (h : ∀ x ∈ l, f x = x) : l.map f = l := by
  induction l with
  | nil => rfl
  | cons x xs ih =>
    simp only [List.map_cons, h x (by simp)]
    rw [ih fun y hy => h y (by simp [hy])]

theorem vcreate_eq_self (k s : Nat) (tid : Int) (l : List NodeView)
    (h : ∀ v ∈ l, v.lft ≤ s ∧ v.rght ≤ s) :
    vcreate k s tid l = l := by
  refine map_eq_self_of_eq _ _ fun v hv => ?_
  have hb := h v hv
  unfold vshiftRow
  split
  · unfold shiftVal
    rw [if_neg (show ¬ s < v.lft by omega), if_neg (show ¬ s < v.rght by omega)]
  · rfl

/-- Ids of the rows of a store, in order. -/
def dbIds (db : List DbNode) : List Nat :=
  db.map fun n => n.id

/-- Ids of a list of structural views, in order. -/
def viewIds (l : List NodeView) : List Nat :=
  l.map fun v => v.id

theorem viewIds_projDb (db : List DbNode) : viewIds (projDb db) = dbIds db := by
  simp only [viewIds, projDb, dbIds, List.map_map]
  exact List.map_congr_left fun n _ => rfl

theorem viewIds_append (l1 l2 : List NodeView) :
    viewIds (l1 ++ l2) = viewIds l1 ++ viewIds l2 := by
  simp [viewIds]

theorem viewIds_vcreate (k s : Nat) (tid : Int) (l : List NodeView) :
    viewIds (vcreate k s tid l) = viewIds l := by
  simp only [viewIds, vcreate, List.map_map]
  exact List.map_congr_left fun v _ => by
    simp only [Function.comp, vshiftRow]
    split <;> rfl

theorem lookup_map (f : DbNode → DbNode) (hf : ∀ n, (f n).id = n.id)
    (db : List DbNode) (j : Nat) :
    lookup (db.map f) j = (lookup db j).map f := by
  induction db with
  | nil => rfl
  | cons x xs ih =>
    simp only [List.map_cons, lookup] at *
    by_cases hx : x.id = j
    · rw [List.find?_cons_of_pos _ (by simp [hf, hx]),
        List.find?_cons_of_pos _ (by simp [hx])]
      rfl
    · rw [List.find?_cons_of_neg _ (by simp [hf, hx]),
        List.find?_cons_of_neg _ (by simp [hx])]
      exact ih

theorem vlookup_map (f : NodeView → NodeView) (hf : ∀ v, (f v).id = v.id)
    (l : List NodeView) (j : Nat) :
    vlookup (l.map f) j = (vlookup l j).map f := by
  induction l with
  | nil => rfl
  | cons x xs ih =>
    simp only [List.map_cons, vlookup] at *
    by_cases hx : x.id = j
    · rw [List.find?_cons_of_pos _ (by simp [hf, hx]),
        List.find?_cons_of_pos _ (by simp [hx])]
      rfl
    · rw [List.find?_cons_of_neg _ (by simp [hf, hx]),
        List.find?_cons_of_neg _ (by simp [hx])]
      exact ih

theorem vlookup_projDb (db : List DbNode) (j : Nat) :
    vlookup (projDb db) j = (lookup db j).map proj := by
  induction db with
  | nil => rfl
  | cons x xs ih =>
    simp only [projDb, List.map_cons, vlookup, lookup] at *
    by_cases hx : x.id = j
    · rw [List.find?_cons_of_pos _ (by simp [proj, hx]),
        List.find?_cons_of_pos _ (by simp [hx])]
      rfl
    · rw [List.find?_cons_of_neg _ (by simp [proj, hx]),
        List.find?_cons_of_neg _ (by simp [hx])]
      exact ih

theorem lookup_append_left (l1 l2 : List DbNode) (j : Nat) (P : DbNode)
    (h : lookup l1 j = some P) : lookup (l1 ++ l2) j = some P := by
  simp only [lookup] at *
  rw [List.find?_append, h]
  rfl

theorem lookup_append_of_fresh (l1 l2 : List DbNode) (j : Nat)
    (h : ∀ r ∈ l1, r.id ≠ j) : lookup (l1 ++ l2) j = lookup l2 j := by
  simp only [lookup] at *
  rw [List.find?_append, List.find?_eq_none.mpr (by simpa using h)]
  rfl

theorem vlookup_append_left (l1 l2 : List NodeView) (j : Nat) (v : NodeView)
    (h : vlookup l1 j = some v) : vlookup (l1 ++ l2) j = some v := by
  simp only [vlookup] at *
  rw [List.find?_append, h]
  rfl

theorem lookup_vcreate_projDb (k s : Nat) (tid : Int) (db : List DbNode) (j : Nat)
    (P : DbNode) (h : lookup db j = some P) :
    vlookup (vcreate k s tid (projDb db)) j = some (vshiftRow k s tid (proj P)) := by
  rw [vcreate, vlookup_map (vshiftRow k s tid)
    (fun v => by simp only [vshiftRow]; split <;> rfl) (projDb db) j]
  rw [vlookup_projDb, h]
  rfl

theorem except_map_ok {ε α β : Type} (g : α → β) (e : Except ε α) (y : β)
    (h : e.map g = .ok y) : ∃ v, e = .ok v ∧ g v = y := by
  cases e with
  | error msg => simp [Except.map] at h
  | ok v =>
    refine ⟨v, rfl, ?_⟩
    simpa [Except.map] using h

theorem vcreate_append (k s : Nat) (tid : Int) (l1 l2 : List NodeView) :
    vcreate k s tid (l1 ++ l2) = vcreate k s tid l1 ++ vcreate k s tid l2 := by
  simp [vcreate]

theorem vcreate_zero (s : Nat) (tid : Int) (l : List NodeView) :
    vcreate 0 s tid l = l := by
  refine map_eq_self_of_eq _ _ fun v _ => ?_
  unfold vshiftRow shiftVal
  split
  · split <;> split <;> rfl
  · rfl

theorem dbIds_append (l1 l2 : List DbNode) :
    dbIds (l1 ++ l2) = dbIds l1 ++ dbIds l2 := by
  simp [dbIds]

theorem dbIds_create_space (k s : Nat) (tid : Int) (db : List DbNode) :
    dbIds (create_space k s tid db) = dbIds db := by
  simp only [dbIds, create_space, List.map_map]
  exact List.map_congr_left fun n _ => by
    simp only [Function.comp, shiftRow]
    split <;> rfl

theorem dbIds_update_changed (U : List (Option Nat)) (db : List DbNode) :
    dbIds (update_changed U db) = dbIds db := by
  simp only [dbIds, update_changed, List.map_map]
  exact List.map_congr_left fun n _ => by
    simp only [Function.comp]
    split <;> rfl

theorem fresh_ids_ne (db : List DbNode) (j : Nat) (h : j ∉ dbIds db) :
    ∀ r ∈ db, r.id ≠ j := fun r hr he =>
  h (he ▸ List.mem_map_of_mem (fun n => n.id) hr)

theorem dbIds_treeify (tid : Int) (d : NodeDesc) (c l : Nat) :
    dbIds (treeify tid d c l).1 = descIds d :=
  treeify_ids tid d c l

mutual
theorem insertRec_proj (d : NodeDesc) (p : Nat) (pos : Position) (a : AllocState)
    (db : List DbNode) (P : DbNode) (tid : Int) (st lvl : Nat)
    (hl : lookup db p = some P) (hrs : rootSibling P pos = false)
    (htid : P.tree_id = tid) (hst : calc_space_target P pos = st)
    (hlvl : calc_level P pos = lvl)
    (hnd : (descIds d).Nodup) (hfresh : ∀ j ∈ descIds d, j ∉ dbIds db) :
    Except.map (fun r => (projDb r.1, r.2)) (insertRec d p pos a db)
      = .ok (vcreate (2 * descSize d) st tid (projDb db)
          ++ projDb (treeify tid d (st + 1) lvl).1, a) := by
  match d with
  | .mk i nm cs =>
    have hfn : freshNode i nm P pos
        = ⟨i, nm, tid, st + 1, st + 2, lvl, calc_parent P pos, false⟩ := by
      simp [freshNode, htid, hst, hlvl]
    have h0 := insert_node_ok_normal i nm none p pos a db P hl hrs
    rw [hfn, hst, htid] at h0
    simp only [insertRec]
    rw [h0]
    show Except.map (fun r => (projDb r.1, r.2))
        (insertRecList cs i a
          (update_changed [none, calc_parent P pos, some i]
            (create_space 2 st tid db
              ++ [⟨i, nm, tid, st + 1, st + 2, lvl, calc_parent P pos, false⟩])))
      = _
    have hfresh_i : i ∉ dbIds db := hfresh i (by simp [descIds])
    have hndcs : (descListIds cs).Nodup := by
      have := hnd
      simp only [descIds, List.nodup_cons] at this
      exact this.2
    have hi_cs : i ∉ descListIds cs := by
      have := hnd
      simp only [descIds, List.nodup_cons] at this
      exact this.1
    have hlook1 : lookup
        (update_changed [none, calc_parent P pos, some i]
          (create_space 2 st tid db
            ++ [⟨i, nm, tid, st + 1, st + 2, lvl, calc_parent P pos, false⟩])) i
        = some ⟨i, nm, tid, st + 1, st + 2, lvl, calc_parent P pos, true⟩ := by
      rw [update_changed, lookup_map _ (fun n => by split <;> rfl)]
      rw [lookup_append_of_fresh _ _ _ (by
        intro r hr
        have : r.id ∈ dbIds (create_space 2 st tid db) :=
          List.mem_map_of_mem (fun n => n.id) hr
        rw [dbIds_create_space] at this
        intro he
        exact hfresh_i (he ▸ this))]
      rw [show lookup [(⟨i, nm, tid, st + 1, st + 2, lvl, calc_parent P pos, false⟩ :
          DbNode)] i = some ⟨i, nm, tid, st + 1, st + 2, lvl, calc_parent P pos, false⟩ by
        simp [lookup]]
      simp
    have hfresh1 : ∀ j ∈ descListIds cs, j ∉ dbIds
        (update_changed [none, calc_parent P pos, some i]
          (create_space 2 st tid db
            ++ [⟨i, nm, tid, st + 1, st + 2, lvl, calc_parent P pos, false⟩])) := by
      intro j hj
      rw [dbIds_update_changed, dbIds_append, dbIds_create_space]
      intro hmem
      rcases List.mem_append.mp hmem with hmem | hmem
      · exact hfresh j (by simp [descIds, hj]) hmem
      · simp only [dbIds, List.map_cons, List.map_nil, List.mem_singleton] at hmem
        exact hi_cs (hmem ▸ hj)
    have hB := insertRecList_proj cs i a _
      ⟨i, nm, tid, st + 1, st + 2, lvl, calc_parent P pos, true⟩ tid (st + 1) lvl
      hlook1 rfl rfl rfl hndcs hfresh1
    rw [hB]
    have hshift : vshiftRow (2 * descListSize cs) (st + 1) tid
        (⟨i, tid, st + 1, st + 2, lvl⟩ : NodeView)
        = ⟨i, tid, st + 1, st + 2 + 2 * descListSize cs, lvl⟩ := by
      unfold vshiftRow
      rw [if_pos rfl]
      show (⟨i, tid, shiftVal (2 * descListSize cs) (st + 1) (st + 1),
        shiftVal (2 * descListSize cs) (st + 1) (st + 2), lvl⟩ : NodeView) = _
      unfold shiftVal
      rw [if_neg (show ¬ (st + 1 < st + 1) by omega),
        if_pos (show st + 1 < st + 2 by omega)]
    have e1 : projDb
        (update_changed [none, calc_parent P pos, some i]
          (create_space 2 st tid db
            ++ [⟨i, nm, tid, st + 1, st + 2, lvl, calc_parent P pos, false⟩]))
        = vcreate 2 st tid (projDb db) ++ [⟨i, tid, st + 1, st + 2, lvl⟩] := by
      rw [projDb_update_changed, projDb_append, projDb_create_space]
      rfl
    have e2 : vcreate (2 * descListSize cs) (st + 1) tid
        (vcreate 2 st tid (projDb db) ++ [(⟨i, tid, st + 1, st + 2, lvl⟩ : NodeView)])
        = vcreate (2 + 2 * descListSize cs) st tid (projDb db)
          ++ [⟨i, tid, st + 1, st + 2 + 2 * descListSize cs, lvl⟩] := by
      rw [vcreate_append, vcreate_comp 2 (2 * descListSize cs) st (st + 1) tid _
        (by omega) (by omega)]
      congr 1
      simp only [vcreate, List.map_cons, List.map_nil]
      rw [hshift]
    have hc := treeifyChildren_cursor tid cs (st + 1) (lvl + 1)
    have e3 : projDb (treeify tid (NodeDesc.mk i nm cs) (st + 1) lvl).1
        = ⟨i, tid, st + 1, st + 2 + 2 * descListSize cs, lvl⟩
          :: projDb (treeifyChildren tid cs (st + 1) (lvl + 1)).1 := by
      have hr2 : (treeifyChildren tid cs (st + 1) (lvl + 1)).2 + 1
          = st + 2 + 2 * descListSize cs := by omega
      simp only [treeify, projDb, List.map_cons, proj]
      rw [hr2]
    have hsz : 2 * descSize (NodeDesc.mk i nm cs)
        = 2 + 2 * descListSize cs := by
      simp only [descSize]
      omega
    rw [e1, e2, e3, hsz]
    rw [List.append_assoc]
    rfl

theorem insertRecList_proj (ds : List NodeDesc) (p : Nat) (a : AllocState)
    (db : List DbNode) (P : DbNode) (tid : Int) (st lvl : Nat)
    (hl : lookup db p = some P) (htid : P.tree_id = tid)
    (hr : P.rght = st + 1) (hlvl : P.level = lvl)
    (hnd : (descListIds ds).Nodup) (hfresh : ∀ j ∈ descListIds ds, j ∉ dbIds db) :
    Except.map (fun r => (projDb r.1, r.2)) (insertRecList ds p a db)
      = .ok (vcreate (2 * descListSize ds) st tid (projDb db)
          ++ projDb (treeifyChildren tid ds st (lvl + 1)).1, a) := by
  match ds with
  | [] =>
    simp only [insertRecList, descListSize, treeifyChildren, Nat.mul_zero,
      vcreate_zero, projDb, List.map_nil, List.append_nil, Except.map]
  | d :: rest =>
    have hstA : calc_space_target P Position.lastChild = st := by
      simp [calc_space_target, hr]
    have hlvlA : calc_level P Position.lastChild = lvl + 1 := by
      simp [calc_level, hlvl]
    have hndA : (descIds d).Nodup := by
      have := hnd
      simp only [descListIds] at this
      exact this.of_append_left
    have hndR : (descListIds rest).Nodup := by
      have := hnd
      simp only [descListIds] at this
      exact this.of_append_right
    have hdisj : ∀ j, j ∈ descIds d → j ∉ descListIds rest := by
      have := hnd
      simp only [descListIds] at this
      exact fun j hj hj2 => (List.disjoint_of_nodup_append this) hj hj2
    have hfreshA : ∀ j ∈ descIds d, j ∉ dbIds db := fun j hj =>
      hfresh j (by simp only [descListIds, List.mem_append]; exact Or.inl hj)
    have hA := insertRec_proj d p Position.lastChild a db P tid st (lvl + 1)
      hl rfl htid hstA hlvlA hndA hfreshA
    obtain ⟨v, hv, hgv⟩ := except_map_ok _ _ _ hA
    obtain ⟨db2, a2⟩ := v
    simp only [Prod.mk.injEq] at hgv
    obtain ⟨hproj2, ha2⟩ := hgv
    rw [ha2] at hv
    simp only [insertRecList]
    rw [hv]
    show Except.map (fun r => (projDb r.1, r.2)) (insertRecList rest p a db2) = _
    have hvl : vlookup (projDb db2) p
        = some (vshiftRow (2 * descSize d) st tid (proj P)) := by
      rw [hproj2]
      exact vlookup_append_left _ _ p _ (lookup_vcreate_projDb _ _ _ db p P hl)
    have hlp : (lookup db2 p).map proj
        = some (vshiftRow (2 * descSize d) st tid (proj P)) := by
      rw [← vlookup_projDb]
      exact hvl
    have hvs : vshiftRow (2 * descSize d) st tid (proj P)
        = ⟨P.id, tid, shiftVal (2 * descSize d) st P.lft,
            st + 1 + 2 * descSize d, lvl⟩ := by
      unfold vshiftRow
      rw [if_pos (show (proj P).tree_id = tid from htid)]
      simp only [proj, NodeView.mk.injEq]
      refine ⟨trivial, htid, trivial, ?_, hlvl⟩
      unfold shiftVal
      rw [if_pos (show st < P.rght by omega)]
      omega
    obtain ⟨Q, hQ, hQproj⟩ : ∃ Q, lookup db2 p = some Q ∧
        proj Q = ⟨P.id, tid, shiftVal (2 * descSize d) st P.lft,
          st + 1 + 2 * descSize d, lvl⟩ := by
      rw [hvs] at hlp
      cases hq : lookup db2 p with
      | none => rw [hq] at hlp; exact absurd hlp (by simp)
      | some q =>
        rw [hq] at hlp
        exact ⟨q, rfl, by simpa using hlp⟩
    have hQtid : Q.tree_id = tid := by
      have := congrArg NodeView.tree_id hQproj
      simpa [proj] using this
    have hQr : Q.rght = st + 1 + 2 * descSize d := by
      have := congrArg NodeView.rght hQproj
      simpa [proj] using this
    have hQl : Q.level = lvl := by
      have := congrArg NodeView.level hQproj
      simpa [proj] using this
    have hids2 : dbIds db2 = dbIds db ++ descIds d := by
      have hv2 := congrArg viewIds hproj2
      rw [viewIds_projDb] at hv2
      rw [hv2, viewIds_append, viewIds_vcreate, viewIds_projDb, viewIds_projDb,
        dbIds_treeify]
    have hfresh2 : ∀ j ∈ descListIds rest, j ∉ dbIds db2 := by
      intro j hj
      rw [hids2]
      intro hmem
      rcases List.mem_append.mp hmem with hmem | hmem
      · exact hfresh j (by simp only [descListIds, List.mem_append]; exact Or.inr hj)
          hmem
      · exact hdisj j hmem hj
    have hB := insertRecList_proj rest p a db2 Q tid (st + 2 * descSize d) lvl
      hQ hQtid (by omega) hQl hndR hfresh2
    rw [hB]
    have hcur := treeify_cursor tid d (st + 1) (lvl + 1)
    have hbound : ∀ v ∈ projDb (treeify tid d (st + 1) (lvl + 1)).1,
        v.lft ≤ st + 2 * descSize d ∧ v.rght ≤ st + 2 * descSize d := by
      intro v hv2
      rcases List.mem_map.mp hv2 with ⟨n, hn, rfl⟩
      have hb := treeify_bounds tid d (st + 1) (lvl + 1) n hn
      simp only [proj]
      constructor <;> omega
    have e2 : vcreate (2 * descListSize rest) (st + 2 * descSize d) tid (projDb db2)
        = vcreate (2 * descSize d + 2 * descListSize rest) st tid (projDb db)
          ++ projDb (treeify tid d (st + 1) (lvl + 1)).1 := by
      rw [hproj2, vcreate_append,
        vcreate_comp (2 * descSize d) (2 * descListSize rest) st
          (st + 2 * descSize d) tid _ (by omega) (by omega),
        vcreate_eq_self _ _ _ _ hbound]
    have e3 : projDb (treeifyChildren tid (d :: rest) st (lvl + 1)).1
        = projDb (treeify tid d (st + 1) (lvl + 1)).1
          ++ projDb (treeifyChildren tid rest (st + 2 * descSize d) (lvl + 1)).1 := by
      have hcur2 : (treeify tid d (st + 1) (lvl + 1)).2 = st + 2 * descSize d := by
        omega
      simp only [treeifyChildren]
      rw [projDb_append, hcur2]
    have hsz : 2 * descListSize (d :: rest)
        = 2 * descSize d + 2 * descListSize rest := by
      simp only [descListSize]
      omega
    rw [e2, e3, hsz]
    rw [List.append_assoc]
end

/-- C1 (amended): for every existing target and position, provided the
insertion is not a root-sibling one (position `left`/`right` with a root
target), building the subtree in bulk via `build_tree_nodes` and grafting it
under the target yields exactly the same final structural assignments (id,
tree id, `{left, right, level}`) for every row — pre-existing and new — as
inserting the same nodes one at a time with persisting `insert_node` calls in
pre-order (root at the target position, then each child as last child of its
parent). -/
theorem bulk_build_graft_eq_sequential_insert (d : NodeDesc) (tId : Nat)
    (pos : Position) (a : AllocState) (db : List DbNode) (t : DbNode)
    (hl : lookup db tId = some t) (hrs : rootSibling t pos = false)
    (hlft : 1 ≤ t.lft) (hrght : 1 ≤ t.rght)
    (hnd : (descIds d).Nodup) (hfresh : ∀ j ∈ descIds d, j ∉ dbIds db) :
    Except.map (fun r => (projDb r.1, r.2)) (insertRec d tId pos a db)
      = Except.map (fun r => (projDb r.1, r.2)) (build_and_graft d tId pos a db) := by
  cases pos with
  | lastChild =>
    have hA := insertRec_proj d tId Position.lastChild a db t t.tree_id
      (t.rght - 1) (t.level + 1) hl hrs rfl (by simp [calc_space_target])
      (by simp [calc_level]) hnd hfresh
    rw [hA]
    have hb : build_and_graft d tId Position.lastChild a db
        = .ok (create_space
              (2 * (treeify t.tree_id d t.rght (t.level + 1)).1.length)
              (t.rght - 1) t.tree_id db
            ++ (treeify t.tree_id d t.rght (t.level + 1)).1, a) := by
      simp [build_and_graft, build_tree_nodes, hl]
    rw [hb]
    simp only [Except.map]
    rw [show t.rght - 1 + 1 = t.rght by omega]
    rw [projDb_append, projDb_create_space, treeify_length]
  | firstChild =>
    have hA := insertRec_proj d tId Position.firstChild a db t t.tree_id
      t.lft (t.level + 1) hl hrs rfl (by simp [calc_space_target])
      (by simp [calc_level]) hnd hfresh
    rw [hA]
    have hb : build_and_graft d tId Position.firstChild a db
        = .ok (create_space
              (2 * (treeify t.tree_id d (t.lft + 1) (t.level + 1)).1.length)
              (t.lft + 1 - 1) t.tree_id db
            ++ (treeify t.tree_id d (t.lft + 1) (t.level + 1)).1, a) := by
      simp [build_and_graft, build_tree_nodes, hl]
    rw [hb]
    simp only [Except.map]
    rw [show t.lft + 1 - 1 = t.lft by omega]
    rw [projDb_append, projDb_create_space, treeify_length]
  | left =>
    have hA := insertRec_proj d tId Position.left a db t t.tree_id
      (t.lft - 1) t.level hl hrs rfl (by simp [calc_space_target])
      (by simp [calc_level]) hnd hfresh
    rw [hA]
    have hb : build_and_graft d tId Position.left a db
        = .ok (create_space
              (2 * (treeify t.tree_id d t.lft t.level).1.length)
              (t.lft - 1) t.tree_id db
            ++ (treeify t.tree_id d t.lft t.level).1, a) := by
      simp [build_and_graft, build_tree_nodes, hl]
    rw [hb]
    simp only [Except.map]
    rw [show t.lft - 1 + 1 = t.lft by omega]
    rw [projDb_append, projDb_create_space, treeify_length]
  | right =>
    have hA := insertRec_proj d tId Position.right a db t t.tree_id
      t.rght t.level hl hrs rfl (by simp [calc_space_target])
      (by simp [calc_level]) hnd hfresh
    rw [hA]
    have hb : build_and_graft d tId Position.right a db
        = .ok (create_space
              (2 * (treeify t.tree_id d (t.rght + 1) t.level).1.length)
              (t.rght + 1 - 1) t.tree_id db
            ++ (treeify t.tree_id d (t.rght + 1) t.level).1, a) := by
      simp [build_and_graft, build_tree_nodes, hl]
    rw [hb]
    simp only [Except.map]
    rw [show t.rght + 1 - 1 = t.rght by omega]
    rw [projDb_append, projDb_create_space, treeify_length]

/-- Witness for C1's amended theorem: grafting `{R, [a, b]}` as last child of
`T` in a concrete two-row tree agrees with the three sequential inserts. -/
theorem bulk_build_graft_eq_sequential_insert_witness :
    Except.map (fun r => (projDb r.1, r.2))
        (insertRec (NodeDesc.mk 1 "R" [NodeDesc.mk 2 "a" [], NodeDesc.mk 3 "b" []])
          10 Position.lastChild ⟨0⟩
          [⟨10, "T", 1, 1, 4, 0, none, false⟩, ⟨11, "C", 1, 2, 3, 1, some 10, false⟩])
      = Except.map (fun r => (projDb r.1, r.2))
        (build_and_graft (NodeDesc.mk 1 "R" [NodeDesc.mk 2 "a" [], NodeDesc.mk 3 "b" []])
          10 Position.lastChild ⟨0⟩
          [⟨10, "T", 1, 1, 4, 0, none, false⟩, ⟨11, "C", 1, 2, 3, 1, some 10, false⟩]) :=
  bulk_build_graft_eq_sequential_insert
    (NodeDesc.mk 1 "R" [NodeDesc.mk 2 "a" [], NodeDesc.mk 3 "b" []]) 10
    Position.lastChild ⟨0⟩
    [⟨10, "T", 1, 1, 4, 0, none, false⟩, ⟨11, "C", 1, 2, 3, 1, some 10, false⟩]
    ⟨10, "T", 1, 1, 4, 0, none, false⟩ rfl rfl (by decide) (by decide)
    (by decide) (by decide)

/-- C1 (counterexample): with a root target and a sibling position the two
paths disagree: sequential `insert_node` dispatches to the root-sibling
branch and places the new node at `(1, 2)` in a tree of its own, while
`build_tree_nodes` grafts it into the target root's tree at `(3, 4)`. -/
theorem bulk_build_root_sibling_counterexample :
    rootSibling (⟨10, "T", 1, 1, 2, 0, none, false⟩ : DbNode) Position.right = true ∧
    Except.map (fun r => (r.1.map projLRL, r.2))
        (insertRec (NodeDesc.mk 2 "n" []) 10 Position.right ⟨5⟩
          [⟨10, "T", 1, 1, 2, 0, none, false⟩])
      ≠ Except.map (fun r => (r.1.map projLRL, r.2))
        (build_and_graft (NodeDesc.mk 2 "n" []) 10 Position.right ⟨5⟩
          [⟨10, "T", 1, 1, 2, 0, none, false⟩]) := by
  refine ⟨rfl, ?_⟩
  intro hcontra
  rw [show Except.map (fun r => (r.1.map projLRL, r.2))
        (insertRec (NodeDesc.mk 2 "n" []) 10 Position.right ⟨5⟩
          [⟨10, "T", 1, 1, 2, 0, none, false⟩])
      = Except.ok ([(10, 1, 2, 0), (2, 1, 2, 0)], (⟨5⟩ : AllocState)) from rfl,
    show Except.map (fun r => (r.1.map projLRL, r.2))
        (build_and_graft (NodeDesc.mk 2 "n" []) 10 Position.right ⟨5⟩
          [⟨10, "T", 1, 1, 2, 0, none, false⟩])
      = Except.ok ([(10, 1, 2, 0), (2, 3, 4, 0)], (⟨5⟩ : AllocState)) from rfl] at hcontra
  simp at hcontra

end Studio
